import Mathlib

/-!
Verification of the static code analyzer (`src/code_analyzer.py`).

The Python source is shallowly embedded below.  Each Python regex used by a
check is translated into an executable character-list matcher with exactly the
backtracking semantics of `re.match` (anchored at the start, partial match).
Character classes are modelled on the ASCII fragment actually exercised by
identifiers and source lines: `\w` is letter/digit/underscore, `\p{lu}` is an
uppercase letter (`Char.isUpper`), `\s` is `Char.isWhitespace`.
-/

/-- Python's word-character class `\w` (ASCII fragment): letter, digit or
underscore. -/
def isWordChar (c : Char) : Bool :=
  c.isAlpha || c.isDigit || c == '_'

/-- A single-quote character, used when rendering the analyzer's messages. -/
def qmark : String := "\x27"

/-! ## Naming classifier (source lines 113-119) -/

/-- `is_not_snake` (line 115): `bool(re.match(r'\w*\p{lu}\w*', name))`.
`re.match` succeeds iff some prefix of word characters is followed by an
uppercase letter, i.e. scanning from the start through word characters we hit
an uppercase letter. -/
def is_not_snake : List Char → Bool
  | [] => false
  | c :: rest => c.isUpper || (isWordChar c && is_not_snake rest)

/-- Second alternative of the `is_not_camel` regex, `\w*_\w*`: scanning from
the start through word characters we hit an underscore. -/
def underscoreInWord : List Char → Bool
  | [] => false
  | c :: rest => c == '_' || (isWordChar c && underscoreInWord rest)

/-- `is_not_camel` (line 119): `bool(re.match(r'\P{lu}\w*|\w*_\w*', name))`.
The first alternative `\P{lu}\w*` succeeds exactly when the name is nonempty
and its first character is not an uppercase letter; the second is
`underscoreInWord`. -/
def is_not_camel : List Char → Bool
  | [] => false
  | c :: rest => !c.isUpper || underscoreInWord (c :: rest)

/-! ## Issue model (source lines 16, 29-31, 55-59) -/

/-- The `Issue` namedtuple (line 16): fields `file`, `line_num`, `code`,
`message`, in that order. -/
structure Issue where
  file : String
  line_num : Nat
  code : String
  message : String
deriving DecidableEq

/-- Code-point lexicographic comparison of strings as character lists:
Python's `str` `<`. -/
def charListLt : List Char → List Char → Bool
  | [], [] => false
  | [], _ :: _ => true
  | _ :: _, [] => false
  | a :: as, b :: bs => decide (a < b) || (a == b && charListLt as bs)

def strLtb (s t : String) : Bool := charListLt s.toList t.toList

theorem charListLt_iff (s t : List Char) :
    charListLt s t = true ↔ List.Lex (· < ·) s t := by
  induction s generalizing t with
  | nil =>
    cases t with
    | nil => simp [charListLt]
    | cons b bs => simp [charListLt]; exact List.Lex.nil
  | cons a as ih =>
    cases t with
    | nil =>
      simp only [charListLt, Bool.false_eq_true, false_iff]
      intro h
      cases h
    | cons b bs =>
      simp only [charListLt, Bool.or_eq_true, Bool.and_eq_true, decide_eq_true_eq,
        beq_iff_eq, ih]
      constructor
      · rintro (h | ⟨rfl, h⟩)
        · exact List.Lex.rel h
        · exact List.Lex.cons h
      · intro h
        cases h with
        | cons h => exact Or.inr ⟨rfl, h⟩
        | rel h => exact Or.inl h

theorem strLtb_iff (s t : String) : strLtb s t = true ↔ s < t := by
  rw [String.lt_iff_toList_lt]
  exact charListLt_iff s.toList t.toList

/-- Python's comparison of two `Issue` namedtuples, `a <= b`: lexicographic on
the 4-tuple `(file, line_num, code, message)`. -/
def Issue.leb (a b : Issue) : Bool :=
  strLtb a.file b.file ||
    (a.file == b.file &&
      (decide (a.line_num < b.line_num) ||
        (a.line_num == b.line_num &&
          (strLtb a.code b.code ||
            (a.code == b.code &&
              (strLtb a.message b.message || a.message == b.message))))))

/-- The total order used by `sorted(self.issues)` (line 31). -/
def Issue.le (a b : Issue) : Prop := Issue.leb a b = true

instance : DecidableRel Issue.le :=
  fun a b => inferInstanceAs (Decidable (Issue.leb a b = true))

/-- The comparison key of an issue, as a Mathlib lexicographic product. -/
def Issue.key (i : Issue) : Lex (String × Lex (Nat × Lex (String × String))) :=
  toLex (i.file, toLex (i.line_num, toLex (i.code, i.message)))

theorem Issue.le_iff_key (a b : Issue) : Issue.le a b ↔ a.key ≤ b.key := by
  rw [Issue.le, Issue.key, Issue.key]
  simp only [Issue.leb, Bool.or_eq_true, Bool.and_eq_true, decide_eq_true_eq,
    beq_iff_eq, strLtb_iff]
  rw [Prod.Lex.le_iff, Prod.Lex.le_iff, Prod.Lex.le_iff]
  simp [le_iff_lt_or_eq]

instance : IsTotal Issue Issue.le :=
  ⟨fun a b => by
    rcases le_total a.key b.key with h | h
    · exact Or.inl ((Issue.le_iff_key a b).mpr h)
    · exact Or.inr ((Issue.le_iff_key b a).mpr h)⟩

instance : IsTrans Issue Issue.le :=
  ⟨fun a b c h1 h2 => (Issue.le_iff_key a c).mpr
    (le_trans ((Issue.le_iff_key a b).mp h1) ((Issue.le_iff_key b c).mp h2))⟩

/-- `sorted(self.issues)` (line 31): Python's stable sort, modelled as
insertion sort with respect to the namedtuple order. -/
def sortIssues (issues : List Issue) : List Issue :=
  List.insertionSort Issue.le issues

/-- One rendered report line (line 30):
`f'{issue.file}: Line {issue.line_num}: {issue.code} {issue.message}'`. -/
def fmtIssue (i : Issue) : String :=
  i.file ++ ": Line " ++ toString i.line_num ++ ": " ++ i.code ++ " " ++ i.message

/-- `__str__` (lines 29-31): the report is the newline-join of the rendered
lines of the sorted issue list. -/
def report (issues : List Issue) : String :=
  String.intercalate "\n" ((sortIssues issues).map fmtIssue)

/-! ## Line checks (source lines 62-100) -/

/-- `check_length` condition (line 64): `len(self.line) > 79`. -/
def check_length_fires (line : String) : Bool :=
  79 < line.length

/-- `check_indent` condition (line 69):
`re.match(r'\s*', self.line).end() % 4 != 0` — the length of the maximal
leading-whitespace prefix is not a multiple of 4. -/
def check_indent_fires (line : String) : Bool :=
  (line.toList.takeWhile Char.isWhitespace).length % 4 != 0

/-- Tail of the `check_semicolon` regex, `\s*(#.*)?$`: only whitespace up to
the end of the line or up to a `#`. -/
def semiTail : List Char → Bool
  | [] => true
  | c :: rest => c == '#' || (c.isWhitespace && semiTail rest)

/-- `check_semicolon` condition (line 74): `re.match(r'^[^#]*;\s*(#.*)?$', line)`.
Scanning left to right, `[^#]*` may consume any `#`-free prefix; at each
position a `;` followed by `semiTail` gives a match. -/
def semiGo : List Char → Bool
  | [] => false
  | c :: rest => (c == ';' && semiTail rest) || (c != '#' && semiGo rest)

def check_semicolon_fires (line : String) : Bool :=
  semiGo line.toList

/-- Does the list start with `#`? -/
def headHash : List Char → Bool
  | [] => false
  | e :: _ => e == '#'

/-- The ` ?#` part of the `check_inline` regex: a `#` directly, or one space
and then a `#`. -/
def optSpaceHash : List Char → Bool
  | [] => false
  | d :: u => d == '#' || (d == ' ' && headHash u)

/-- The `\S ?#` tail of the `check_inline` regex: a non-whitespace character
(which may itself be `#`), at most one space, then `#`. -/
def startsInline : List Char → Bool
  | [] => false
  | c :: t => !c.isWhitespace && optSpaceHash t

/-- `check_inline` condition (line 79): `re.match(r'^[^#]*\S ?#', line)`.
`[^#]*` may consume any `#`-free prefix; at each such position the tail must
match `\S ?#`. -/
def inlineGo : List Char → Bool
  | [] => false
  | c :: rest => startsInline (c :: rest) || (c != '#' && inlineGo rest)

def check_inline_fires (line : String) : Bool :=
  inlineGo line.toList

/-- Does the list start with `todo`, case-insensitively (`re.IGNORECASE`)? -/
def todoHere : List Char → Bool
  | a :: b :: c :: d :: _ =>
    a.toLower == 't' && b.toLower == 'o' && c.toLower == 'd' && d.toLower == 'o'
  | _ => false

/-- Does `todo` occur, case-insensitively, anywhere in the list
(the `.*todo` part of the `check_todo` regex)? -/
def containsTodo : List Char → Bool
  | [] => false
  | c :: rest => todoHere (c :: rest) || containsTodo rest

/-- `check_todo` condition (line 84):
`re.match(r'^[^#]*#.*todo', line, re.IGNORECASE)` — the line has a `#` and the
text after the first `#` contains `todo` case-insensitively. -/
def todoGo : List Char → Bool
  | [] => false
  | c :: rest => if c == '#' then containsTodo rest else todoGo rest

def check_todo_fires (line : String) : Bool :=
  todoGo line.toList

/-- Python's `str.strip()` produces the empty string iff every character is
whitespace; `bool(s.strip())` is the negation of this. -/
def isBlankStr (s : String) : Bool :=
  s.toList.all Char.isWhitespace

/-- `check_blank_lines` condition (lines 89-92): with
`line_index = self.line_num - 1`, fires iff `line_index >= 3`, the current
line `self.lines[line_index]` strips to something truthy, and
`''.join(self.lines[line_index - 3 : line_index]).strip()` is falsy. -/
def check_blank_lines_fires (lines : List String) (line_num : Nat) : Bool :=
  let i := line_num - 1
  decide (3 ≤ i) && !isBlankStr (lines.getD i "")
    && isBlankStr (String.join ((lines.drop (i - 3)).take 3))

/-- `check_space_class_def` match (line 97):
`re.match(r'^\s*(class|def)\s{2,}', line)`, returning the captured keyword.
`\s*` must consume exactly the maximal whitespace prefix (a shorter prefix
would put a whitespace character where the keyword's first letter is
required), then the literal keyword, then at least two whitespace
characters. -/
def check_space_class_def_name (line : String) : Option String :=
  match line.toList.dropWhile Char.isWhitespace with
  | 'c' :: 'l' :: 'a' :: 's' :: 's' :: a :: b :: _ =>
    if a.isWhitespace && b.isWhitespace then some "class" else none
  | 'd' :: 'e' :: 'f' :: a :: b :: _ =>
    if a.isWhitespace && b.isWhitespace then some "def" else none
  | _ => none

/-- The issues appended by one pass of the seven line checks (lines 18-26
declare the order; lines 62-100 the checks) on one physical line. -/
def line_issues (file : String) (lines : List String) (line_num : Nat)
    (line : String) : List Issue :=
  (if check_length_fires line then
    [⟨file, line_num, "S001", "Too long"⟩] else [])
  ++ (if check_indent_fires line then
    [⟨file, line_num, "S002", "Indentation is not a multiple of 4"⟩] else [])
  ++ (if check_semicolon_fires line then
    [⟨file, line_num, "S003", "Unnecessary semicolon"⟩] else [])
  ++ (if check_inline_fires line then
    [⟨file, line_num, "S004", "At least two spaces required before inline comments"⟩] else [])
  ++ (if check_todo_fires line then
    [⟨file, line_num, "S005", "TODO found"⟩] else [])
  ++ (if check_blank_lines_fires lines line_num then
    [⟨file, line_num, "S006", "More than two blank lines used before this line"⟩] else [])
  ++ (match check_space_class_def_name line with
      | some kw => [⟨file, line_num, "S007", "Too many spaces after " ++ qmark ++ kw ++ qmark⟩]
      | none => [])

/-- `analyze_lines` (lines 108-111): enumerate the lines starting at 1,
running every line check on each; `n` is the 1-based number of the first line
of `rest`. -/
def analyze_lines_from (file : String) (lines : List String) (n : Nat) :
    List String → List Issue
  | [] => []
  | l :: rest =>
    line_issues file lines n l ++ analyze_lines_from file lines (n + 1) rest

def analyze_lines (file : String) (lines : List String) : List Issue :=
  analyze_lines_from file lines 1 lines


/-! ## Declaration tree (source lines 121-156) -/

/-- Classification of a default-value expression by the `isinstance` test on
line 153: literally a list, set or dict display, or anything else. -/
inductive Dflt where
  | list
  | set
  | dict
  | otherExpr
deriving DecidableEq

/-- `isinstance(default, (ast.List, ast.Set, ast.Dict))` (line 153). -/
def Dflt.isMutable : Dflt → Bool
  | .list => true
  | .set => true
  | .dict => true
  | .otherExpr => false

/-- The fragment of the Python `ast` node hierarchy the analyzer inspects:
`ast.Module`, `ast.ClassDef` (name, lineno, children), `ast.FunctionDef`
(name, lineno, the positional argument names `args.args`, the default
expressions `args.defaults` classified by `Dflt`, children), `ast.Name` in
`ast.Store` context, `ast.Name` in any other context, and every other node
kind, which contributes only its child nodes to the traversal. -/
inductive Node where
  | module (body : List Node)
  | classDef (name : String) (lineno : Nat) (body : List Node)
  | functionDef (name : String) (lineno : Nat) (args : List String)
      (defaults : List Dflt) (body : List Node)
  | nameStore (id : String) (lineno : Nat)
  | nameLoad (id : String) (lineno : Nat)
  | other (children : List Node)

/-- `ast.iter_child_nodes`: the child nodes a node contributes to the walk. -/
def Node.children : Node → List Node
  | .module body => body
  | .classDef _ _ body => body
  | .functionDef _ _ _ _ body => body
  | .nameStore _ _ => []
  | .nameLoad _ _ => []
  | .other cs => cs

mutual

/-- Size measure used to prove termination of the breadth-first walk. -/
def Node.weight : Node → Nat
  | .module body => 1 + weightList body
  | .classDef _ _ body => 1 + weightList body
  | .functionDef _ _ _ _ body => 1 + weightList body
  | .nameStore _ _ => 1
  | .nameLoad _ _ => 1
  | .other cs => 1 + weightList cs

def weightList : List Node → Nat
  | [] => 0
  | n :: rest => Node.weight n + weightList rest

end

theorem weightList_append (a b : List Node) :
    weightList (a ++ b) = weightList a + weightList b := by
  induction a with
  | nil => simp [weightList]
  | cons n rest ih =>
    simp only [List.cons_append, weightList, List.append_eq, ih]
    omega

theorem children_weight (n : Node) : weightList n.children < n.weight := by
  cases n <;> simp only [Node.weight, Node.children, weightList] <;> omega

/-- `ast.walk` (used at lines 122 and 144): breadth-first traversal with a
queue — pop the front node, yield it, push its children at the back. -/
def walk : List Node → List Node
  | [] => []
  | n :: todo => n :: walk (todo ++ n.children)
termination_by l => weightList l
decreasing_by
  simp only [weightList, weightList_append]
  have := children_weight n
  omega

theorem walk_nil : walk [] = [] := by simp only [walk]

theorem walk_cons (n : Node) (todo : List Node) :
    walk (n :: todo) = n :: walk (todo ++ n.children) := by simp only [walk]

/-- The S011 extraction applied to each node of the inner walk
(lines 144-149): a `Name` node in `Store` context whose id fails
`is_not_snake` yields an issue at the `Name` node's own line. -/
def storeIssue (file : String) : Node → Option Issue
  | .nameStore id ln =>
    if is_not_snake id.toList then
      some ⟨file, ln, "S011",
        "Variable name " ++ qmark ++ id ++ qmark ++ " in function should use snake_case"⟩
    else none
  | _ => none

/-- The issues appended while `analyze_tree` (lines 121-156) visits one node
of the outer walk: the class-name check (S008), or the four function checks in
source order — S009 on the function name, S010 once per failing positional
argument, S011 once per failing store-context name in the walk of the
function's own subtree, and S012 for a mutable default with `break` after the
first match. -/
def node_issues (file : String) : Node → List Issue
  | .classDef name lineno _ =>
    if is_not_camel name.toList then
      [⟨file, lineno, "S008",
        "Class name " ++ qmark ++ name ++ qmark ++ " should use CamelCase"⟩]
    else []
  | .functionDef name lineno args defaults body =>
    (if is_not_snake name.toList then
      [⟨file, lineno, "S009",
        "Function name " ++ qmark ++ name ++ qmark ++ " should use snake_case"⟩]
     else [])
    ++ args.flatMap (fun a =>
        if is_not_snake a.toList then
          [⟨file, lineno, "S010",
            "Argument name " ++ qmark ++ a ++ qmark ++ " should use snake_case"⟩]
        else [])
    ++ (walk [Node.functionDef name lineno args defaults body]).filterMap (storeIssue file)
    ++ (match defaults.find? Dflt.isMutable with
        | some _ => [⟨file, lineno, "S012", "Default argument value is mutable"⟩]
        | none => [])
  | _ => []

/-- `analyze_tree` (lines 121-156): walk the whole tree from the module root
and collect the issues appended at each visited node. -/
def analyze_tree (file : String) (tree : Node) : List Issue :=
  (walk [tree]).flatMap (node_issues file)

/-- The per-file body of `analyze` (lines 102-106): run the line battery and
then the tree battery on one loaded file, accumulating issues in order. -/
def analyzeFile (file : String) (lines : List String) (tree : Node) : List Issue :=
  analyze_lines file lines ++ analyze_tree file tree

mutual

/-- Every line number stored in the tree lies between 1 and `len`.  The Python
parser guarantees this for a tree parsed from a source split into `len` lines:
each node's `lineno` points at a line carrying its first token, and the
trailing `rstrip` of `load_file` removes only whitespace after the last such
line. -/
def Node.linenosOK (len : Nat) : Node → Bool
  | .module body => linenosListOK len body
  | .classDef _ lineno body =>
    decide (1 ≤ lineno) && decide (lineno ≤ len) && linenosListOK len body
  | .functionDef _ lineno _ _ body =>
    decide (1 ≤ lineno) && decide (lineno ≤ len) && linenosListOK len body
  | .nameStore _ lineno => decide (1 ≤ lineno) && decide (lineno ≤ len)
  | .nameLoad _ lineno => decide (1 ≤ lineno) && decide (lineno ≤ len)
  | .other cs => linenosListOK len cs

def linenosListOK (len : Nat) : List Node → Bool
  | [] => true
  | n :: rest => Node.linenosOK len n && linenosListOK len rest

end


/-! ## Spec-side notions and helper lemmas -/

/-- The spec's notion, for claim C2, of a line that "is itself a full-line
comment": its first non-whitespace content is the comment marker `#`. -/
def isFullLineComment (line : String) : Bool :=
  match line.toList.dropWhile Char.isWhitespace with
  | '#' :: _ => true
  | _ => false

theorem underscoreInWord_mem (l : List Char) (h : ∀ x ∈ l, isWordChar x = true) :
    underscoreInWord l = true ↔ '_' ∈ l := by
  induction l with
  | nil => simp [underscoreInWord]
  | cons c rest ih =>
    have hc : isWordChar c = true := h c (List.mem_cons_self c rest)
    have ih2 := ih (fun x hx => h x (List.mem_cons_of_mem c hx))
    simp only [underscoreInWord, Bool.or_eq_true, Bool.and_eq_true, beq_iff_eq, hc,
      true_and, ih2, List.mem_cons]
    constructor
    · rintro (rfl | h2)
      · exact Or.inl rfl
      · exact Or.inr h2
    · rintro (rfl | h2)
      · exact Or.inl rfl
      · exact Or.inr h2

theorem optSpaceHash_iff (t : List Char) :
    optSpaceHash t = true ↔
      ∃ sp rest, t = sp ++ '#' :: rest ∧ (sp = [] ∨ sp = [' ']) := by
  cases t with
  | nil =>
    simp only [optSpaceHash, Bool.false_eq_true, false_iff]
    rintro ⟨sp, rest, h, -⟩
    cases sp <;> simp_all
  | cons d u =>
    simp only [optSpaceHash, Bool.or_eq_true, Bool.and_eq_true, beq_iff_eq]
    constructor
    · rintro (rfl | ⟨rfl, hu⟩)
      · exact ⟨[], u, rfl, Or.inl rfl⟩
      · cases u with
        | nil => simp [headHash] at hu
        | cons e v =>
          have he : e = '#' := by simpa [headHash] using hu
          subst he
          exact ⟨[' '], v, rfl, Or.inr rfl⟩
    · rintro ⟨sp, rest, h, hsp | hsp⟩ <;> subst hsp
      · simp only [List.nil_append, List.cons.injEq] at h
        exact Or.inl h.1
      · simp only [List.cons_append, List.nil_append, List.cons.injEq] at h
        obtain ⟨rfl, rfl⟩ := h
        exact Or.inr ⟨rfl, by simp [headHash]⟩

theorem startsInline_iff (xs : List Char) :
    startsInline xs = true ↔
      ∃ c sp rest, xs = c :: (sp ++ '#' :: rest) ∧ c.isWhitespace = false ∧
        (sp = [] ∨ sp = [' ']) := by
  cases xs with
  | nil =>
    simp only [startsInline, Bool.false_eq_true, false_iff]
    rintro ⟨c, sp, rest, h, -, -⟩
    exact absurd h (by simp)
  | cons c t =>
    simp only [startsInline, Bool.and_eq_true, Bool.not_eq_true', optSpaceHash_iff]
    constructor
    · rintro ⟨hc, sp, rest, rfl, hsp⟩
      exact ⟨c, sp, rest, rfl, hc, hsp⟩
    · rintro ⟨d, sp, rest, h, hd, hsp⟩
      simp only [List.cons.injEq] at h
      obtain ⟨rfl, rfl⟩ := h
      exact ⟨hd, sp, rest, rfl, hsp⟩

theorem inlineGo_iff (line : List Char) :
    inlineGo line = true ↔
      ∃ p c sp rest, line = p ++ c :: (sp ++ '#' :: rest) ∧ '#' ∉ p ∧
        c.isWhitespace = false ∧ (sp = [] ∨ sp = [' ']) := by
  induction line with
  | nil =>
    simp only [inlineGo, Bool.false_eq_true, false_iff]
    rintro ⟨p, c, sp, rest, h, -, -, -⟩
    exact absurd h (by simp)
  | cons a l ih =>
    simp only [inlineGo, Bool.or_eq_true, Bool.and_eq_true, bne_iff_ne, ih, startsInline_iff]
    constructor
    · rintro (⟨c, sp, rest, h, hc, hsp⟩ | ⟨ha, p, c, sp, rest, h, hp, hc, hsp⟩)
      · exact ⟨[], c, sp, rest, by simp [h], by simp, hc, hsp⟩
      · refine ⟨a :: p, c, sp, rest, by simp [h], ?_, hc, hsp⟩
        simp only [List.mem_cons, not_or]
        exact ⟨Ne.symm ha, hp⟩
    · rintro ⟨p, c, sp, rest, h, hp, hc, hsp⟩
      cases p with
      | nil =>
        left
        exact ⟨c, sp, rest, by simpa using h, hc, hsp⟩
      | cons q p2 =>
        right
        simp only [List.cons_append, List.cons.injEq] at h
        obtain ⟨rfl, h2⟩ := h
        simp only [List.mem_cons, not_or] at hp
        exact ⟨Ne.symm hp.1, p2, c, sp, rest, h2, hp.2, hc, hsp⟩

/-! ## Claims C1, C2, C5 -/

/-- C1, counterexample: the claim states that for every identifier containing
at least one uppercase letter and no underscore — such as `myClass` — the
violates-CamelCase predicate returns `false`.  In the code the first regex
alternative `\P{lu}\w*` already matches whenever the first character is not an
uppercase letter, so `is_not_camel "myClass"` is `true` even though `myClass`
contains an uppercase letter and no underscore. -/
theorem C1_counterexample :
    is_not_camel "myClass".toList = true ∧ '_' ∉ "myClass".toList ∧
      ∃ c ∈ "myClass".toList, c.isUpper = true := by decide

/-- C1, amended: for a nonempty identifier made of word characters, the
violates-CamelCase predicate returns `true` exactly when the FIRST character
is not an uppercase letter or the identifier contains an underscore. -/
theorem C1_amended (c : Char) (rest : List Char)
    (h : ∀ x ∈ c :: rest, isWordChar x = true) :
    is_not_camel (c :: rest) = true ↔
      (c.isUpper = false ∨ '_' ∈ c :: rest) := by
  simp [is_not_camel, underscoreInWord_mem (c :: rest) h, Bool.not_eq_true']

/-- Witness for `C1_amended` at the identifier `myClass`. -/
theorem C1_amended_witness :
    is_not_camel ('m' :: "yClass".toList) = true ↔
      ('m'.isUpper = false ∨ '_' ∈ 'm' :: "yClass".toList) :=
  C1_amended 'm' "yClass".toList (by decide)

/-- C2, counterexample: the claim states that the S004 check never fires on a
line that is itself a full-line comment.  On the full-line comment `"# #"`
the regex `^[^#]*\S ?#` matches (`[^#]*` empty, `\S` matching the leading `#`
itself, one space, then `#`), so the check fires. -/
theorem C2_counterexample :
    isFullLineComment "# #" = true ∧ check_inline_fires "# #" = true := by decide

/-- C2, amended: the S004 check fires on a line exactly when the line splits
as a `#`-free prefix, then a non-whitespace character — which may itself be
`#` — then at most one space, then `#`.  (Consequently a full-line comment
does not trigger the check unless the text right after its leading `#` is a
second `#` or a single space followed by `#`.) -/
theorem C2_amended (line : String) :
    check_inline_fires line = true ↔
      ∃ p c sp rest, line.toList = p ++ c :: (sp ++ '#' :: rest) ∧ '#' ∉ p ∧
        c.isWhitespace = false ∧ (sp = [] ∨ sp = [' ']) :=
  inlineGo_iff line.toList

/-- C5: on the input line `"x=1;  # todo fix"` the unnecessary-semicolon check
(S003) fires, the TODO check (S005) fires, the inline-comment-spacing check
(S004) does not fire, and the full line battery on this line emits exactly the
S003 and S005 issues. -/
theorem C5_scenario :
    check_semicolon_fires "x=1;  # todo fix" = true ∧
    check_todo_fires "x=1;  # todo fix" = true ∧
    check_inline_fires "x=1;  # todo fix" = false ∧
    line_issues "test.py" ["x=1;  # todo fix"] 1 "x=1;  # todo fix" =
      [⟨"test.py", 1, "S003", "Unnecessary semicolon"⟩,
       ⟨"test.py", 1, "S005", "TODO found"⟩] := by decide

/-! ## Helper lemmas about issue codes -/

theorem storeIssue_code (file : String) (n : Node) (i : Issue)
    (h : storeIssue file n = some i) : i.code = "S011" := by
  cases n
  case nameStore id ln =>
    simp only [storeIssue] at h
    split at h
    · cases h; rfl
    · cases h
  all_goals simp [storeIssue] at h

theorem mem_storeIssues_code (file : String) (ns : List Node) (i : Issue)
    (hi : i ∈ ns.filterMap (storeIssue file)) : i.code = "S011" := by
  simp only [List.mem_filterMap] at hi
  obtain ⟨n, -, hn⟩ := hi
  exact storeIssue_code file n i hn

theorem mem_argIssues_code (file : String) (lineno : Nat) (args : List String)
    (i : Issue)
    (hi : i ∈ args.flatMap fun a =>
      if is_not_snake a.toList then
        [(⟨file, lineno, "S010",
          "Argument name " ++ qmark ++ a ++ qmark ++ " should use snake_case"⟩ : Issue)]
      else []) :
    i.code = "S010" ∧ i.line_num = lineno := by
  simp only [List.mem_flatMap] at hi
  obtain ⟨a, -, hi⟩ := hi
  by_cases h : is_not_snake a.toList = true
  · rw [if_pos h] at hi
    rw [List.mem_singleton] at hi
    subst hi
    exact ⟨rfl, rfl⟩
  · rw [if_neg h] at hi
    cases hi

theorem mem_defaultIssue_code (file : String) (lineno : Nat) (defaults : List Dflt)
    (i : Issue)
    (hi : i ∈ (match defaults.find? Dflt.isMutable with
      | some _ =>
        [(⟨file, lineno, "S012", "Default argument value is mutable"⟩ : Issue)]
      | none => ([] : List Issue))) :
    i.code = "S012" := by
  cases h : defaults.find? Dflt.isMutable <;> rw [h] at hi
  · cases hi
  · rw [List.mem_singleton] at hi
    subst hi
    rfl

theorem filter_code_nil (l : List Issue) (code : String)
    (h : ∀ i ∈ l, i.code ≠ code) :
    l.filter (fun i => i.code == code) = [] :=
  List.filter_eq_nil_iff.mpr (fun i hi => by simp [h i hi])

theorem filter_code_self (l : List Issue) (code : String)
    (h : ∀ i ∈ l, i.code = code) :
    l.filter (fun i => i.code == code) = l :=
  List.filter_eq_self.mpr (fun i hi => by simp [h i hi])

theorem filter_code_if_nil (b : Bool) (i : Issue) (code : String)
    (h : i.code ≠ code) :
    (if b then [i] else []).filter (fun j => j.code == code) = [] := by
  cases b <;> simp [h]

theorem flatMap_if_singleton {α : Type} (p : α → Bool) (f : α → Issue)
    (l : List α) :
    (l.flatMap fun a => if p a then [f a] else []) = (l.filter p).map f := by
  induction l with
  | nil => simp
  | cons x xs ih =>
    simp only [List.flatMap_cons, List.filter_cons, ih]
    by_cases hx : p x = true
    · simp [hx]
    · simp [hx]

theorem defaultIssue_eq_if (file : String) (lineno : Nat) (defaults : List Dflt) :
    (match defaults.find? Dflt.isMutable with
      | some _ =>
        [(⟨file, lineno, "S012", "Default argument value is mutable"⟩ : Issue)]
      | none => ([] : List Issue)) =
      if defaults.any Dflt.isMutable then
        [⟨file, lineno, "S012", "Default argument value is mutable"⟩]
      else [] := by
  cases h : defaults.find? Dflt.isMutable with
  | none =>
    have hany : defaults.any Dflt.isMutable = false := by
      rw [Bool.eq_false_iff]
      intro hany
      obtain ⟨x, hx, hpx⟩ := List.any_eq_true.mp hany
      exact absurd hpx (by simpa using List.find?_eq_none.mp h x hx)
    simp [hany]
  | some d =>
    have hany : defaults.any Dflt.isMutable = true :=
      List.any_eq_true.mpr ⟨d, List.mem_of_find?_eq_some h, List.find?_some h⟩
    simp [hany]

/-! ## Claims C3, C4, C7 -/

/-- C3: the rendered report sorts issues by the lexicographic order on the
4-tuple `(file, line_num, code, message)`: `sortIssues` permutes its input
(so identical duplicates are both retained) and its output is sorted by that
order, which coincides with the Mathlib lexicographic product order on the
key; the issue `("a.py", 100)` precedes the issue `("b.py", 1)`, file being
the primary key. -/
theorem C3_report_order :
    (∀ l : List Issue, (sortIssues l).Perm l ∧ (sortIssues l).Sorted Issue.le) ∧
    (∀ a b : Issue, Issue.le a b ↔ a.key ≤ b.key) ∧
    Issue.le ⟨"a.py", 100, "S001", "Too long"⟩ ⟨"b.py", 1, "S001", "Too long"⟩ ∧
    sortIssues [⟨"b.py", 1, "S001", "Too long"⟩, ⟨"a.py", 100, "S001", "Too long"⟩] =
      [⟨"a.py", 100, "S001", "Too long"⟩, ⟨"b.py", 1, "S001", "Too long"⟩] ∧
    sortIssues [⟨"a.py", 1, "S001", "Too long"⟩, ⟨"a.py", 1, "S001", "Too long"⟩] =
      [⟨"a.py", 1, "S001", "Too long"⟩, ⟨"a.py", 1, "S001", "Too long"⟩] := by
  refine ⟨fun l => ⟨List.perm_insertionSort Issue.le l,
    List.sorted_insertionSort Issue.le l⟩, Issue.le_iff_key, ?_, ?_, ?_⟩ <;> decide

/-- C4: for every function declaration, the mutable-default check (S012)
emits exactly one issue — attached to the function's declaration line — when
at least one default value is literally a list, set or dict display, and no
issue otherwise; in particular at most one issue regardless of how many
defaulted arguments are mutable. -/
theorem C4_mutable_default (file name : String) (lineno : Nat)
    (args : List String) (defaults : List Dflt) (body : List Node) :
    ((node_issues file (.functionDef name lineno args defaults body)).filter
        (fun i => i.code == "S012") =
      if defaults.any Dflt.isMutable then
        [⟨file, lineno, "S012", "Default argument value is mutable"⟩]
      else []) ∧
    ((node_issues file (.functionDef name lineno args defaults body)).filter
        (fun i => i.code == "S012")).length ≤ 1 := by
  have key : (node_issues file (.functionDef name lineno args defaults body)).filter
      (fun i => i.code == "S012") =
      if defaults.any Dflt.isMutable then
        [⟨file, lineno, "S012", "Default argument value is mutable"⟩]
      else [] := by
    simp only [node_issues, List.filter_append]
    rw [filter_code_if_nil _ _ _ (by show ("S009" : String) ≠ "S012"; decide)]
    rw [filter_code_nil _ _
      (fun i hi => by rw [(mem_argIssues_code file lineno args i hi).1]; decide)]
    rw [filter_code_nil _ _
      (fun i hi => by rw [mem_storeIssues_code file _ i hi]; decide)]
    rw [filter_code_self _ _ (mem_defaultIssue_code file lineno defaults)]
    rw [defaultIssue_eq_if]
    simp
  refine ⟨key, ?_⟩
  rw [key]
  split <;> simp

/-- C7: for every function declaration, the argument-naming check (S010)
emits one issue per positional argument failing the snake_case predicate,
each attached to the function's own declaration line, with the message
embedding the argument name. -/
theorem C7_argument_naming (file name : String) (lineno : Nat)
    (args : List String) (defaults : List Dflt) (body : List Node) :
    (node_issues file (.functionDef name lineno args defaults body)).filter
        (fun i => i.code == "S010") =
      (args.filter (fun a => is_not_snake a.toList)).map (fun a =>
        ⟨file, lineno, "S010",
          "Argument name " ++ qmark ++ a ++ qmark ++ " should use snake_case"⟩) := by
  simp only [node_issues, List.filter_append]
  rw [filter_code_if_nil _ _ _ (by show ("S009" : String) ≠ "S010"; decide)]
  rw [filter_code_self _ _
    (fun i hi => (mem_argIssues_code file lineno args i hi).1)]
  rw [filter_code_nil _ _
    (fun i hi => by rw [mem_storeIssues_code file _ i hi]; decide)]
  rw [filter_code_nil _ _
    (fun i hi => by rw [mem_defaultIssue_code file lineno defaults i hi]; decide)]
  rw [flatMap_if_singleton]
  simp

/-! ## Claim C6 -/

theorem isBlankStr_append (s t : String) :
    isBlankStr (s ++ t) = (isBlankStr s && isBlankStr t) := by
  have h : (s ++ t).toList = s.toList ++ t.toList := rfl
  simp [isBlankStr, h, List.all_append]

theorem foldl_append_blank (l : List String) (init : String) :
    isBlankStr (l.foldl (fun r s => r ++ s) init) =
      (isBlankStr init && l.all isBlankStr) := by
  induction l generalizing init with
  | nil => simp
  | cons s rest ih =>
    simp [List.foldl_cons, ih, isBlankStr_append, Bool.and_assoc]

theorem isBlankStr_join (l : List String) :
    isBlankStr (String.join l) = l.all isBlankStr := by
  have h : isBlankStr "" = true := rfl
  simp [String.join, foldl_append_blank, h]

theorem take3_drop (l : List String) (k : Nat) (h : k + 3 ≤ l.length) :
    (l.drop k).take 3 = [l.getD k "", l.getD (k + 1) "", l.getD (k + 2) ""] := by
  have h0 : k < l.length := by omega
  have h1 : k + 1 < l.length := by omega
  have h2 : k + 2 < l.length := by omega
  rw [List.drop_eq_getElem_cons h0, List.drop_eq_getElem_cons h1,
    List.drop_eq_getElem_cons h2, List.getD_eq_getElem l "" h0,
    List.getD_eq_getElem l "" h1, List.getD_eq_getElem l "" h2]
  rfl

/-- C6: the excessive-blank-lines check (S006) fires on line `n` of a file
exactly when `n ≥ 4` (so never on lines 1–3), the current line is non-blank,
and each of the three immediately preceding physical lines is blank after
trimming; on the file of four blank lines followed by `print(1)` the line
battery emits exactly one S006 issue, attached to the `print(1)` line
(line 5). -/
theorem C6_blank_lines :
    (∀ (lines : List String) (n : Nat), 1 ≤ n → n ≤ lines.length →
      (check_blank_lines_fires lines n = true ↔
        (4 ≤ n ∧ isBlankStr (lines.getD (n - 1) "") = false ∧
          isBlankStr (lines.getD (n - 4) "") = true ∧
          isBlankStr (lines.getD (n - 3) "") = true ∧
          isBlankStr (lines.getD (n - 2) "") = true))) ∧
    (analyze_lines "test.py" ["", "", "", "", "print(1)"]).filter
        (fun i => i.code == "S006") =
      [⟨"test.py", 5, "S006", "More than two blank lines used before this line"⟩] := by
  constructor
  · intro lines n h1 hn
    rw [check_blank_lines_fires]
    simp only [Bool.and_eq_true, decide_eq_true_eq, Bool.not_eq_true']
    have e1 : n - 1 - 3 = n - 4 := by omega
    constructor
    · rintro ⟨⟨h3, hcur⟩, hjoin⟩
      have h4 : 4 ≤ n := by omega
      have e2 : n - 4 + 1 = n - 3 := by omega
      have e3 : n - 4 + 2 = n - 2 := by omega
      rw [e1, take3_drop lines (n - 4) (by omega), e2, e3, isBlankStr_join] at hjoin
      simp only [List.all_cons, List.all_nil, Bool.and_eq_true, Bool.and_true] at hjoin
      exact ⟨h4, hcur, hjoin.1, hjoin.2.1, hjoin.2.2⟩
    · rintro ⟨h4, hcur, hb1, hb2, hb3⟩
      have e2 : n - 4 + 1 = n - 3 := by omega
      have e3 : n - 4 + 2 = n - 2 := by omega
      refine ⟨⟨by omega, hcur⟩, ?_⟩
      rw [e1, take3_drop lines (n - 4) (by omega), e2, e3, isBlankStr_join,
        List.all_cons, List.all_cons, List.all_cons, List.all_nil, hb1, hb2, hb3]
      rfl
  · decide

/-- Witness for the first part of `C6_blank_lines`, at the scenario file. -/
theorem C6_blank_lines_witness :
    check_blank_lines_fires ["", "", "", "", "print(1)"] 5 = true ↔
      (4 ≤ 5 ∧
        isBlankStr ((["", "", "", "", "print(1)"] : List String).getD 4 "") = false ∧
        isBlankStr ((["", "", "", "", "print(1)"] : List String).getD 1 "") = true ∧
        isBlankStr ((["", "", "", "", "print(1)"] : List String).getD 2 "") = true ∧
        isBlankStr ((["", "", "", "", "print(1)"] : List String).getD 3 "") = true) :=
  C6_blank_lines.1 ["", "", "", "", "print(1)"] 5 (by decide) (by decide)

/-! ## Claim C8 -/

/-- C8: the report renders one line per accumulated issue, formatted exactly
`"<file>: Line <line_num>: <code> <message>"` and joined by newlines; an empty
accumulator yields the empty string, and a run over a file with no
declarations and no line violations produces an empty report. -/
theorem C8_report_rendering :
    report [] = "" ∧
    (∀ issues : List Issue, ((sortIssues issues).map fmtIssue).length = issues.length) ∧
    fmtIssue ⟨"a.py", 3, "S001", "Too long"⟩ = "a.py: Line 3: S001 Too long" ∧
    (∀ issues : List Issue,
      report issues = String.intercalate "\n" ((sortIssues issues).map fmtIssue)) ∧
    analyzeFile "test.py" ["x = 1"] (.module [.nameStore "x" 1]) = [] ∧
    report (analyzeFile "test.py" ["x = 1"] (.module [.nameStore "x" 1])) = "" := by
  have hline : analyze_lines "test.py" ["x = 1"] = [] := by decide
  have hw : walk [Node.module [Node.nameStore "x" 1]] =
      [Node.module [Node.nameStore "x" 1], Node.nameStore "x" 1] := by
    simp [walk_cons, walk_nil, Node.children]
  have htree : analyze_tree "test.py" (.module [.nameStore "x" 1]) = [] := by
    simp only [analyze_tree]
    rw [hw]
    decide
  have hfile : analyzeFile "test.py" ["x = 1"] (.module [.nameStore "x" 1]) = [] := by
    simp only [analyzeFile]
    rw [hline, htree]
    rfl
  refine ⟨rfl, fun issues => ?_, rfl, fun issues => rfl, hfile, ?_⟩
  · rw [List.length_map, sortIssues, List.length_insertionSort]
  · rw [hfile]
    rfl

/-! ## Claim C9: every issue stays within the analyzed file -/

theorem weight_pos (n : Node) : 0 < n.weight := by
  cases n <;> simp only [Node.weight] <;> omega

theorem linenosListOK_mem (len : Nat) (l : List Node)
    (h : linenosListOK len l = true) : ∀ m ∈ l, Node.linenosOK len m = true := by
  induction l with
  | nil => intro m hm; cases hm
  | cons n rest ih =>
    simp only [linenosListOK, Bool.and_eq_true] at h
    intro m hm
    rcases List.mem_cons.mp hm with rfl | hm2
    · exact h.1
    · exact ih h.2 m hm2

theorem linenosOK_children (len : Nat) (n : Node)
    (h : Node.linenosOK len n = true) :
    ∀ m ∈ n.children, Node.linenosOK len m = true := by
  cases n with
  | module body => exact linenosListOK_mem len body h
  | classDef name ln body =>
    simp only [Node.linenosOK, Bool.and_eq_true] at h
    exact linenosListOK_mem len body h.2
  | functionDef name ln args ds body =>
    simp only [Node.linenosOK, Bool.and_eq_true] at h
    exact linenosListOK_mem len body h.2
  | nameStore id ln => intro m hm; simp [Node.children] at hm
  | nameLoad id ln => intro m hm; simp [Node.children] at hm
  | other cs => exact linenosListOK_mem len cs h

/-- Every node yielded by the breadth-first walk of a queue of
`linenosOK` nodes is itself `linenosOK` (fuel-indexed induction on the total
weight of the queue). -/
theorem walk_linenosOK (len : Nat) :
    ∀ (k : Nat) (l : List Node), weightList l ≤ k →
      (∀ m ∈ l, Node.linenosOK len m = true) →
      ∀ x ∈ walk l, Node.linenosOK len x = true := by
  intro k
  induction k with
  | zero =>
    intro l hw hm x hx
    cases l with
    | nil => rw [walk_nil] at hx; cases hx
    | cons n todo =>
      exfalso
      have h1 : weightList (n :: todo) = n.weight + weightList todo := rfl
      have h2 := weight_pos n
      omega
  | succ k ih =>
    intro l hw hm x hx
    cases l with
    | nil => rw [walk_nil] at hx; cases hx
    | cons n todo =>
      rw [walk_cons] at hx
      rcases List.mem_cons.mp hx with rfl | hx2
      · exact hm x (List.mem_cons_self x todo)
      · refine ih (todo ++ n.children) ?_ ?_ x hx2
        · have h1 : weightList (n :: todo) = n.weight + weightList todo := rfl
          have h2 := children_weight n
          rw [weightList_append]
          omega
        · intro m hm2
          rcases List.mem_append.mp hm2 with h | h
          · exact hm m (List.mem_cons_of_mem n h)
          · exact linenosOK_children len n (hm n (List.mem_cons_self n todo)) m h

theorem mem_if_singleton {α : Type} {i x : α} {b : Bool}
    (hi : i ∈ if b then [x] else ([] : List α)) : i = x := by
  cases b
  · simp at hi
  · simpa using hi

theorem storeIssue_fields (file : String) (len : Nat) (n : Node) (i : Issue)
    (hOK : Node.linenosOK len n = true) (h : storeIssue file n = some i) :
    i.file = file ∧ 1 ≤ i.line_num ∧ i.line_num ≤ len := by
  cases n
  case nameStore id ln =>
    simp only [storeIssue] at h
    split at h
    · cases h
      simp only [Node.linenosOK, Bool.and_eq_true, decide_eq_true_eq] at hOK
      exact ⟨rfl, hOK.1, hOK.2⟩
    · cases h
  all_goals simp [storeIssue] at h

theorem node_issues_bounds (file : String) (len : Nat) (node : Node)
    (hOK : Node.linenosOK len node = true) :
    ∀ i ∈ node_issues file node,
      i.file = file ∧ 1 ≤ i.line_num ∧ i.line_num ≤ len := by
  cases node with
  | classDef name ln body =>
    simp only [Node.linenosOK, Bool.and_eq_true, decide_eq_true_eq] at hOK
    intro i hi
    simp only [node_issues] at hi
    rw [mem_if_singleton hi]
    exact ⟨rfl, hOK.1.1, hOK.1.2⟩
  | functionDef name ln args ds body =>
    have hbounds : 1 ≤ ln ∧ ln ≤ len := by
      simp only [Node.linenosOK, Bool.and_eq_true, decide_eq_true_eq] at hOK
      exact hOK.1
    intro i hi
    simp only [node_issues, List.mem_append] at hi
    rcases hi with ((hi | hi) | hi) | hi
    · rw [mem_if_singleton hi]
      exact ⟨rfl, hbounds.1, hbounds.2⟩
    · simp only [List.mem_flatMap] at hi
      obtain ⟨a, -, hi⟩ := hi
      rw [mem_if_singleton hi]
      exact ⟨rfl, hbounds.1, hbounds.2⟩
    · simp only [List.mem_filterMap] at hi
      obtain ⟨m, hmem, hm⟩ := hi
      have hmOK : Node.linenosOK len m = true := by
        refine walk_linenosOK len (weightList [Node.functionDef name ln args ds body])
          [Node.functionDef name ln args ds body] (le_refl _) ?_ m hmem
        intro x hx
        rcases List.mem_singleton.mp hx with rfl
        exact hOK
      exact storeIssue_fields file len m i hmOK hm
    · revert hi
      cases h : List.find? Dflt.isMutable ds
      · intro hi
        simp at hi
      · intro hi
        simp at hi
        subst hi
        exact ⟨rfl, hbounds.1, hbounds.2⟩
  | module body => intro i hi; simp [node_issues] at hi
  | nameStore id ln => intro i hi; simp [node_issues] at hi
  | nameLoad id ln => intro i hi; simp [node_issues] at hi
  | other cs => intro i hi; simp [node_issues] at hi

theorem line_issues_fields (file : String) (lines : List String) (n : Nat)
    (line : String) :
    ∀ i ∈ line_issues file lines n line, i.file = file ∧ i.line_num = n := by
  intro i hi
  simp only [line_issues, List.mem_append] at hi
  rcases hi with ((((((hi | hi) | hi) | hi) | hi) | hi) | hi)
  · rw [mem_if_singleton hi]; exact ⟨rfl, rfl⟩
  · rw [mem_if_singleton hi]; exact ⟨rfl, rfl⟩
  · rw [mem_if_singleton hi]; exact ⟨rfl, rfl⟩
  · rw [mem_if_singleton hi]; exact ⟨rfl, rfl⟩
  · rw [mem_if_singleton hi]; exact ⟨rfl, rfl⟩
  · rw [mem_if_singleton hi]; exact ⟨rfl, rfl⟩
  · revert hi
    cases h : check_space_class_def_name line
    · intro hi
      simp at hi
    · intro hi
      simp at hi
      subst hi
      exact ⟨rfl, rfl⟩

theorem analyze_lines_from_fields (file : String) (lines : List String) :
    ∀ (rest : List String) (n : Nat), ∀ i ∈ analyze_lines_from file lines n rest,
      i.file = file ∧ n ≤ i.line_num ∧ i.line_num < n + rest.length := by
  intro rest
  induction rest with
  | nil =>
    intro n i hi
    simp only [analyze_lines_from] at hi
    cases hi
  | cons l rest ih =>
    intro n i hi
    simp only [analyze_lines_from, List.mem_append] at hi
    rcases hi with hi | hi
    · obtain ⟨hf, hn⟩ := line_issues_fields file lines n l i hi
      rw [List.length_cons]
      exact ⟨hf, by omega, by omega⟩
    · obtain ⟨hf, h1, h2⟩ := ih (n + 1) i hi
      rw [List.length_cons]
      exact ⟨hf, by omega, by omega⟩

/-- C9: provided every line number stored in the parsed tree lies between 1
and the file's line count (as the Python parser guarantees for the tree of the
analyzed source), every issue produced by analyzing the file carries the
analyzed file's identifier and a line number between 1 and the line count —
for the line battery and the tree battery alike. -/
theorem C9_issue_bounds (file : String) (lines : List String) (tree : Node)
    (h : Node.linenosOK lines.length tree = true) :
    (analyzeFile file lines tree).all
      (fun i => i.file == file && decide (1 ≤ i.line_num) &&
        decide (i.line_num ≤ lines.length)) = true := by
  rw [List.all_eq_true]
  intro i hi
  simp only [Bool.and_eq_true, beq_iff_eq, decide_eq_true_eq]
  simp only [analyzeFile, List.mem_append] at hi
  rcases hi with hi | hi
  · rw [analyze_lines] at hi
    have hf := analyze_lines_from_fields file lines lines 1 i hi
    exact ⟨⟨hf.1, hf.2.1⟩, by have := hf.2.2; omega⟩
  · simp only [analyze_tree, List.mem_flatMap] at hi
    obtain ⟨n, hn, hi⟩ := hi
    have hnOK : Node.linenosOK lines.length n = true := by
      refine walk_linenosOK lines.length (weightList [tree]) [tree] (le_refl _)
        ?_ n hn
      intro m hm
      rcases List.mem_singleton.mp hm with rfl
      exact h
    have hb := node_issues_bounds file lines.length n hnOK i hi
    exact ⟨⟨hb.1, hb.2.1⟩, hb.2.2⟩

/-- Witness for `C9_issue_bounds`: a one-line file whose tree holds a
function with a badly named argument, so the run emits issues. -/
theorem C9_issue_bounds_witness :
    (analyzeFile "test.py" ["def f(X): pass"]
        (.module [.functionDef "f" 1 ["X"] [] []])).all
      (fun i => i.file == "test.py" && decide (1 ≤ i.line_num) &&
        decide (i.line_num ≤ (["def f(X): pass"] : List String).length)) = true :=
  C9_issue_bounds "test.py" ["def f(X): pass"]
    (.module [.functionDef "f" 1 ["X"] [] []]) (by decide)

/-! ## Claim C10: one S011 issue per enclosing function -/

/-- A store-context name occurrence nested under `k` function definitions:
`nestK v ln 0` is the occurrence itself, and each further level wraps it in
one more `FunctionDef`. -/
def nestK (v : String) (ln : Nat) : Nat → Node
  | 0 => .nameStore v ln
  | k + 1 => .functionDef "f" 1 [] [] [nestK v ln k]

/-- The S011 issue emitted for the occurrence of `v` at line `ln`. -/
def s011Issue (file v : String) (ln : Nat) : Issue :=
  ⟨file, ln, "S011",
    "Variable name " ++ qmark ++ v ++ qmark ++ " in function should use snake_case"⟩

theorem walk_nestK (v : String) (ln : Nat) (k : Nat) :
    walk [nestK v ln (k + 1)] = nestK v ln (k + 1) :: walk [nestK v ln k] := by
  have h : nestK v ln (k + 1) = .functionDef "f" 1 [] [] [nestK v ln k] := rfl
  rw [h, walk_cons]
  simp [Node.children]

theorem filterMap_store_nestK (file v : String) (ln : Nat)
    (hv : is_not_snake v.toList = true) :
    ∀ k, (walk [nestK v ln k]).filterMap (storeIssue file) =
      [s011Issue file v ln] := by
  intro k
  induction k with
  | zero =>
    rw [show nestK v ln 0 = Node.nameStore v ln from rfl, walk_cons]
    simp only [Node.children, List.append_nil, walk_nil]
    have hsome : storeIssue file (Node.nameStore v ln) = some (s011Issue file v ln) := by
      simp only [storeIssue]
      rw [if_pos hv]
      rfl
    rw [List.filterMap_cons_some hsome, List.filterMap_nil]
  | succ k ih =>
    rw [walk_nestK]
    rw [List.filterMap_cons_none
      (show storeIssue file (nestK v ln (k + 1)) = none from rfl)]
    exact ih

theorem node_issues_nestK (file v : String) (ln : Nat)
    (hv : is_not_snake v.toList = true) (k : Nat) :
    node_issues file (nestK v ln (k + 1)) = [s011Issue file v ln] := by
  have hwalk := filterMap_store_nestK file v ln hv (k + 1)
  rw [show nestK v ln (k + 1) = Node.functionDef "f" 1 [] [] [nestK v ln k]
    from rfl] at hwalk ⊢
  simp only [node_issues]
  rw [hwalk]
  have hf : is_not_snake ['f'] = false := by decide
  simp [hf]

/-- C10: an assignment occurrence whose bound name fails snake_case, nested
under `k` levels of function definitions, yields exactly `k` identical S011
issues — one per enclosing function — and the report's sort retains all of
them. -/
theorem C10_nested_s011 (file v : String) (ln : Nat) (k : Nat)
    (hv : is_not_snake v.toList = true) :
    analyze_tree file (.module [nestK v ln k]) =
      List.replicate k (s011Issue file v ln) ∧
    (sortIssues (analyze_tree file (.module [nestK v ln k]))).count
      (s011Issue file v ln) = k := by
  have h1 : analyze_tree file (.module [nestK v ln k]) =
      List.replicate k (s011Issue file v ln) := by
    simp only [analyze_tree]
    rw [walk_cons]
    simp only [Node.children, List.nil_append]
    rw [List.flatMap_cons]
    rw [show node_issues file (Node.module [nestK v ln k]) = [] from rfl]
    rw [List.nil_append]
    induction k with
    | zero =>
      rw [show nestK v ln 0 = Node.nameStore v ln from rfl, walk_cons]
      simp [Node.children, walk_nil, node_issues, List.replicate]
    | succ k ih =>
      rw [walk_nestK, List.flatMap_cons, node_issues_nestK file v ln hv k, ih,
        List.replicate_succ]
      rfl
  refine ⟨h1, ?_⟩
  simp only [sortIssues]
  rw [(List.perm_insertionSort Issue.le
    (analyze_tree file (.module [nestK v ln k]))).count_eq]
  rw [h1, List.count_replicate_self]

/-- Witness for `C10_nested_s011`: the badly named `X` stored at line 3 inside
two nested function definitions yields two identical S011 issues. -/
theorem C10_nested_s011_witness :
    analyze_tree "test.py" (.module [nestK "X" 3 2]) =
      List.replicate 2 (s011Issue "test.py" "X" 3) ∧
    (sortIssues (analyze_tree "test.py" (.module [nestK "X" 3 2]))).count
      (s011Issue "test.py" "X" 3) = 2 :=
  C10_nested_s011 "test.py" "X" 3 2 (by decide)
